import Mathlib

/-!
Verification of the aggregation / normalization / ranking core of the
todo-merger repository (`todo_merger/_issues.py`, `todo_merger/_views.py`),
as a shallow embedding in Lean 4.

Conventions of the embedding:
* Python strings are Lean `String`s; where the sort machinery manipulates
  individual code points, a string is viewed as its list of code points
  (`String.data` mapped through `Char.toNat`), which matches CPython's
  per-code-point string comparison.
* Timezone-aware datetimes are represented by their epoch-second value
  (`Nat`); the code normalizes every datetime to UTC, so one instant is one
  number.  `datetime.strftime("%s")` of such a value is its decimal string.
* Python `dict`s (the issues configuration, the ranking table) are
  association lists with unique keys; `get`/assignment/`pop` are modelled by
  structurally recursive functions below.
* Fallible Python code (raising `ValueError`, propagating exceptions from a
  fetch, `chr` on a negative argument, `getattr` on a missing attribute) is
  modelled with `Except`/`Option`.
-/

namespace TodoMerger

/-- Canonical record for one issue or merge/pull request
(`IssueItem` dataclass in `_issues.py`).  `updated_at` is the UTC
epoch-second instant; `assignee_users` holds the rendered assignee string
produced by `sort_assignees`. -/
structure IssueItem where
  updated_at : Nat := 0
  updated_at_display : String := ""
  assignee_users : String := ""
  due_date : String := ""
  epic_title : String := ""
  milestone_title : String := ""
  ref : String := ""
  pull : Bool := false
  title : String := ""
  web_url : String := ""
  service : String := ""
  deriving Repr, DecidableEq

/-- Stats about all issues (`IssuesStats` dataclass in `_issues.py`).
The counters start at 0 and are only incremented, so `Nat` is used. -/
structure IssuesStats where
  total : Nat := 0
  gitlab : Nat := 0
  github : Nat := 0
  pulls : Nat := 0
  issues : Nat := 0
  due_dates_total : Nat := 0
  milestones_total : Nat := 0
  epics_total : Nat := 0
  deriving Repr, DecidableEq

/-- Python's `sep.join(strs)`. -/
def pyJoin (sep : String) : List String → String
  | [] => ""
  | [x] => x
  | x :: y :: rest => x ++ sep ++ pyJoin sep (y :: rest)

/-- `_sort_assignees` from `_issues.py`: remove the requesting user's
handle from the assignee list (Python `list.remove` removes the first
occurrence and is a no-op via the caught `ValueError` when absent, which is
`List.erase`), return `""` when nothing remains, otherwise join `"Me"` with
the remaining names by `", "`. -/
def sort_assignees (assignees : List String) (my_user_name : String) : String :=
  let assignees := assignees.erase my_user_name
  if assignees = [] then ""
  else pyJoin ", " ("Me" :: assignees)

/-- `_time_ago` from `_issues.py`, as a function of the elapsed time
`now - dt` in whole seconds.  Python's `timedelta` decomposes that total
into `days = total / 86400` and `seconds = total % 86400`, which is what
the source reads as `diff.days` and `diff.seconds`. -/
def time_ago (totalSeconds : Nat) : String :=
  let days := totalSeconds / 86400
  let seconds := totalSeconds % 86400
  if days ≥ 365 then
    let years := days / 365
    toString years ++ " year" ++ (if years > 1 then "s" else "") ++ " ago"
  else if days ≥ 30 then
    let months := days / 30
    toString months ++ " month" ++ (if months > 1 then "s" else "") ++ " ago"
  else if days ≥ 7 then
    let weeks := days / 7
    toString weeks ++ " week" ++ (if weeks > 1 then "s" else "") ++ " ago"
  else if days > 0 then
    toString days ++ " day" ++ (if days > 1 then "s" else "") ++ " ago"
  else if seconds ≥ 3600 then
    let hours := seconds / 3600
    toString hours ++ " hour" ++ (if hours > 1 then "s" else "") ++ " ago"
  else if seconds ≥ 60 then
    let minutes := seconds / 60
    toString minutes ++ " minute" ++ (if minutes > 1 then "s" else "") ++ " ago"
  else "Just now"

/-- Rendering of one bucket of `time_ago`: the count, the unit name (with
its leading space, e.g. `" year"`), an `"s"` exactly when the count
exceeds 1, then `" ago"`. -/
def unitStr (n : Nat) (unit : String) : String :=
  toString n ++ unit ++ (if n > 1 then "s" else "") ++ " ago"

/-! ### Python dict operations (association lists with unique keys) -/

/-- `d.get(k)` / `k in d` combined: the value stored under `k`, if any. -/
def dictGet (k : String) : List (String × Int) → Option Int
  | [] => none
  | (k', v) :: rest => if k' = k then some v else dictGet k rest

/-- `d[k] = v`: replace the value in place if the key exists, append
otherwise (Python dicts preserve insertion order). -/
def dictSet (k : String) (v : Int) : List (String × Int) → List (String × Int)
  | [] => [(k, v)]
  | (k', v') :: rest => if k' = k then (k, v) :: rest else (k', v') :: dictSet k v rest

/-- `d.pop(k)`: drop the entry stored under `k`. -/
def dictPop (k : String) : List (String × Int) → List (String × Int)
  | [] => []
  | (k', v') :: rest => if k' = k then rest else (k', v') :: dictPop k rest

/-! ### Override store (`set_ranking` in `_views.py`) -/

/-- Modelled from the spec: the numeric rank of `"pin"`.  The constant
`ISSUE_RANKING_TABLE` is imported by `_views.py` from a version of
`_issues.py` that is not under `src/`; the spec fixes the symbolic names
(`pin`, `high`, `normal`, `low`), that ranks are signed integers with lower
meaning more urgent, and that pin/low are sentinel extremes.  The concrete
numerals are representative; no theorem below depends on their values. -/
def RANK_PIN : Int := -9999

/-- Modelled from the spec: the numeric rank of `"high"`. -/
def RANK_HIGH : Int := -1

/-- Modelled from the spec: the numeric rank of `"normal"` (the default). -/
def RANK_NORMAL : Int := 0

/-- Modelled from the spec: the numeric rank of `"low"`. -/
def RANK_LOW : Int := 9999

/-- Modelled from the spec: `ISSUE_RANKING_TABLE`, the mapping from
symbolic rank names to their numeric values (see `RANK_PIN`). -/
def ISSUE_RANKING_TABLE : List (String × Int) :=
  [("pin", RANK_PIN), ("high", RANK_HIGH), ("normal", RANK_NORMAL), ("low", RANK_LOW)]

/-- `ISSUE_RANKING_TABLE.get(rank, ISSUE_RANKING_TABLE["normal"])`: the
numeric value of a rank name, defaulting to the value of `"normal"` for
unknown names. -/
def rankValue (rank : String) : Int :=
  (dictGet rank ISSUE_RANKING_TABLE).getD RANK_NORMAL

/-- `set_ranking` from `_views.py`, with the issues-configuration dict made
an explicit argument and result (the source reads it with
`read_issues_config()` and persists it with `write_issues_config`).
For a non-empty issue id: if the stored override equals the new numeric
value, the entry is popped; otherwise it is (re)written.  An empty issue id
leaves the configuration untouched (`if issue:`). -/
def set_ranking (issue : String) (rank : String)
    (config : List (String × Int)) : List (String × Int) :=
  let rank_int := rankValue rank
  if issue ≠ "" then
    if dictGet issue config = some rank_int then dictPop issue config
    else dictSet issue rank_int config
  else config

/-! ### Timestamp conversion and GitHub import (`_issues.py`) -/

/-- Argument of `_convert_to_datetime`: either an already-parsed datetime
(carried as its UTC epoch seconds) or a timestamp string.  Parsing a string
is done by the external `dateutil.parser.isoparse`, modelled by its
outcome: `some epoch` when the string parses, `none` when it does not. -/
inductive Timestamp where
  | dt (epoch : Nat)
  | str (parseResult : Option Nat)
  deriving Repr, DecidableEq

/-- `_convert_to_datetime` from `_issues.py`: pass a datetime through,
parse a string, and raise `ValueError` (here: `Except.error`) when the
string does not parse.  UTC normalization is implicit in the epoch-second
representation. -/
def convert_to_datetime : Timestamp → Except String Nat
  | .dt e => .ok e
  | .str (some e) => .ok e
  | .str none => .error "Unrecognized timestamp format"

/-- Python's `str.strip("/")`: drop `'/'` characters from both ends. -/
def stripSlashes (s : String) : String :=
  String.mk (((s.data.dropWhile (· = '/')).reverse.dropWhile (· = '/')).reverse)

/-- `_gh_url_to_ref` from `_issues.py`, applied to the path component of
the issue URL (`urllib.parse.urlparse(url).path` is external and is
modelled by handing the function the path directly): strip slashes, then
replace the issue/pull path markers with `"#"` (Python `str.replace`
replaces every occurrence, as does `String.replace`). -/
def gh_url_to_ref (path : String) : String :=
  ((stripSlashes path).replace "/issues/" "#").replace "/pull/" "#"

/-- One raw GitHub API record, restricted to the attributes that
`_import_github_issues` reads.  `html_url_path` is the path component of
`issue.html_url`; `pull_request_present` is `issue.pull_request is not
None`; `milestone` is `None` or the milestone object's title. -/
structure RawGithubIssue where
  updated_at : Timestamp
  assignees : List String
  milestone : Option String
  html_url_path : String
  title : String
  pull_request_present : Bool
  deriving Repr

/-- `_import_github_issues` from `_issues.py` (lines 183-207): build one
`IssueItem` per raw record, in order.  `now` is the current UTC instant in
epoch seconds used by `_time_ago`.  The `ValueError` raised by
`_convert_to_datetime` for an unparsable timestamp propagates out of the
loop, so it is threaded through `Except`.  The comprehension
`[u.login for u in issue.assignees if issue.assignees]` filters every
element by the truthiness of the whole list, so it equals the assignee
list itself. -/
def import_github_issues (now : Nat) (issues : List RawGithubIssue)
    (myuser : String) : Except String (List IssueItem) :=
  match issues with
  | [] => .ok []
  | issue :: rest => do
    let e ← convert_to_datetime issue.updated_at
    let d : IssueItem :=
      { updated_at := e
        updated_at_display := time_ago (now - e)
        assignee_users := sort_assignees issue.assignees myuser
        due_date := ""
        epic_title := ""
        milestone_title := match issue.milestone with | some t => t | none => ""
        ref := gh_url_to_ref issue.html_url_path
        title := issue.title
        web_url := issue.html_url_path
        pull := issue.pull_request_present
        service := "github" }
    let ds ← import_github_issues now rest myuser
    .ok (d :: ds)

/-! ### Aggregation (`get_all_issues` in `_issues.py`) -/

/-- One configured source as `get_all_issues` sees it: its configured name,
its service kind tag (`service[0]`), and the outcome of calling its fetch
function (`github_get_issues` / `gitlab_get_issues` are external network
calls; each is modelled by its result — a list of items, or the raised
network/auth error). -/
structure ConfiguredService where
  name : String
  kind : String
  fetch : Except String (List IssueItem)

/-- `get_all_issues` from `_issues.py` (lines 251-262): iterate over the
configured services, extending the accumulated list with each
github/gitlab source's fetched items and skipping sources of any other
kind.  There is no exception handling in the source, so an error raised by
a fetch propagates and the items accumulated so far are discarded. -/
def get_all_issues : List ConfiguredService → Except String (List IssueItem)
  | [] => .ok []
  | service :: rest =>
    if service.kind = "github" then do
      let items ← service.fetch
      let more ← get_all_issues rest
      .ok (items ++ more)
    else if service.kind = "gitlab" then do
      let items ← service.fetch
      let more ← get_all_issues rest
      .ok (items ++ more)
    else get_all_issues rest

/-! ### Stats (`get_issues_stats` in `_issues.py`) -/

/-- `getattr(stats, name)` for the dynamic per-service counter selection:
the value of the named `IssuesStats` field, or `none` (an
`AttributeError`) for an unknown name. -/
def statFieldGet (stats : IssuesStats) : String → Option Nat
  | "total" => some stats.total
  | "gitlab" => some stats.gitlab
  | "github" => some stats.github
  | "pulls" => some stats.pulls
  | "issues" => some stats.issues
  | "due_dates_total" => some stats.due_dates_total
  | "milestones_total" => some stats.milestones_total
  | "epics_total" => some stats.epics_total
  | _ => none

/-- `setattr(stats, name, v)`, companion of `statFieldGet`. -/
def statFieldSet (stats : IssuesStats) (name : String) (v : Nat) : Option IssuesStats :=
  match name with
  | "total" => some { stats with total := v }
  | "gitlab" => some { stats with gitlab := v }
  | "github" => some { stats with github := v }
  | "pulls" => some { stats with pulls := v }
  | "issues" => some { stats with issues := v }
  | "due_dates_total" => some { stats with due_dates_total := v }
  | "milestones_total" => some { stats with milestones_total := v }
  | "epics_total" => some { stats with epics_total := v }
  | _ => none

/-- One iteration of the `get_issues_stats` loop: bump `total`, bump the
counter named by the item's service tag via `getattr`/`setattr`, split
pulls vs issues, and count non-empty due date / milestone / epic strings
(Python string truthiness). -/
def stats_step (stats : IssuesStats) (issue : IssueItem) : Option IssuesStats := do
  let stats := { stats with total := stats.total + 1 }
  let cur ← statFieldGet stats issue.service
  let stats ← statFieldSet stats issue.service (cur + 1)
  let stats :=
    if issue.pull then { stats with pulls := stats.pulls + 1 }
    else { stats with issues := stats.issues + 1 }
  pure { stats with
    due_dates_total := stats.due_dates_total + (if issue.due_date ≠ "" then 1 else 0)
    milestones_total := stats.milestones_total + (if issue.milestone_title ≠ "" then 1 else 0)
    epics_total := stats.epics_total + (if issue.epic_title ≠ "" then 1 else 0) }

/-- `get_issues_stats` from `_issues.py` (lines 322-341): a single linear
pass over the items starting from the all-zero stats.  A service tag that
names no `IssuesStats` field raises `AttributeError`, hence the `Option`. -/
def get_issues_stats (issues : List IssueItem) : Option IssuesStats :=
  issues.foldlM stats_step {}

/-! ### Ranking engine (`prioritize_issues` / `sort_key` in `_issues.py`)

The inner `sort_key` function builds, per `(field, reverse)` pair, a tuple
`(1, None)` for an empty value and `(0, value)` for a non-empty one, where
`value` is the field value converted to a string of code points.  Since the
flag determines the payload (`1` always pairs with `None`), the pair is
encoded here as `Option (List Nat)`: `none` is `(1, None)` and `some v` is
`(0, v)`.  The comparison functions below give `none` exactly the ordering
Python's tuple comparison gives `(1, None)`: strictly above every
`(0, value)` and tied with itself (two equal flags `1` make the tuples
compare equal without `None` ever being compared). -/

/-- One per-key component of the sort key: `none` encodes `(1, None)`
(empty value), `some v` encodes `(0, v)`. -/
abbrev KeyElem := Option (List Nat)

/-- The whole sort key of one item: one component per `sort_by` entry,
compared lexicographically like a Python tuple. -/
abbrev SortKey := List KeyElem

/-- A sortable field value as `sort_key` receives it from `getattr`:
a string or a (UTC epoch-second) datetime. -/
inductive Value where
  | vstr (s : String)
  | vdt (epoch : Nat)
  deriving Repr, DecidableEq

/-- `getattr(issue, f)` restricted to the string/datetime fields that
`sort_key` can process.  An unknown attribute raises `AttributeError`
(`none`); the boolean field `pull` is outside the str/datetime domain the
source's `isinstance` tests handle and is likewise not modelled as
sortable. -/
def getattrSort (issue : IssueItem) : String → Option Value
  | "updated_at" => some (.vdt issue.updated_at)
  | "updated_at_display" => some (.vstr issue.updated_at_display)
  | "assignee_users" => some (.vstr issue.assignee_users)
  | "due_date" => some (.vstr issue.due_date)
  | "epic_title" => some (.vstr issue.epic_title)
  | "milestone_title" => some (.vstr issue.milestone_title)
  | "ref" => some (.vstr issue.ref)
  | "title" => some (.vstr issue.title)
  | "web_url" => some (.vstr issue.web_url)
  | "service" => some (.vstr issue.service)
  | _ => none

/-- The code points of a string (CPython compares strings per code
point). -/
def cp (s : String) : List Nat := s.data.map Char.toNat

/-- Python's `str.lower`, per code point, exact wherever the 255 boundary
of the descending-key transform can be affected.  On code points up to
255: ASCII `A`-`Z` and the Latin-1 uppercase letters map down by 32, `×`
at 215 and everything else is fixed, and Python maps no code point below
256 to one above 255.  Above 255, exactly four code points have a Python
lowercase at or below 255 — `Ÿ` U+0178 → `ÿ` 255, `ẞ` U+1E9E → `ß` 223,
KELVIN SIGN U+212A → `k` 107, ANGSTROM SIGN U+212B → `å` 229 — and these
are mapped exactly; every other code point above 255 is modelled as the
identity, which preserves whether the lowered value stays above 255 (the
only property the theorems below read off this range; the one full-casing
expansion, `İ` U+0130 → `i`+U+0307, also keeps a code point above 255). -/
def pyLower (c : Nat) : Nat :=
  if 65 ≤ c ∧ c ≤ 90 then c + 32
  else if 192 ≤ c ∧ c ≤ 222 ∧ c ≠ 215 then c + 32
  else if c = 376 then 255
  else if c = 7838 then 223
  else if c = 8490 then 107
  else if c = 8491 then 229
  else c

/-- Big-endian decimal digits, driven by explicit fuel so that the kernel
can evaluate it (the fuel only has to dominate the number of digits). -/
def digitsFuel : Nat → Nat → List Nat
  | 0, _ => []
  | fuel + 1, n => if n < 10 then [n] else digitsFuel fuel (n / 10) ++ [n % 10]

/-- The big-endian decimal digits of `n` (`[0]` for 0). -/
def natDigits (n : Nat) : List Nat := digitsFuel (n + 1) n

/-- The code points of the decimal representation of `n`: the model of
`datetime.strftime("%s")`, which renders the epoch seconds of a (UTC)
datetime as an unpadded decimal string. -/
def natDecimalCp (n : Nat) : List Nat := (natDigits n).map (· + 48)

/-- The string `sort_key` compares for one field value: a datetime becomes
its decimal epoch-second string (`value.strftime("%s")`), a string is
case-folded (`value.lower()`). -/
def convertedValue : Value → List Nat
  | .vdt e => natDecimalCp e
  | .vstr s => (cp s).map pyLower

/-- One component of the sort key for a converted field value
(`sort_key`'s loop body): the empty-marker `(1, None)` for an empty value
regardless of direction; otherwise `(0, value)`, where a descending key
first maps every code point `c` to `chr(255 - ord(c))` — `chr` raises
`ValueError` (`none`) exactly when `255 - c` is negative, i.e. when
`c > 255`. -/
def keyElemOf (v : Value) (reverse : Bool) : Option KeyElem :=
  let value := convertedValue v
  if value = [] then some none
  else if reverse then
    (value.mapM (fun c => if c ≤ 255 then some (255 - c) else none)).map some
  else some (some value)

/-- The sort-key component contributed by one `(field, reverse)` pair:
fetch the attribute, then build the component. -/
def entryElem (issue : IssueItem) (f : String) (reverse : Bool) : Option KeyElem :=
  (getattrSort issue f).bind (fun v => keyElemOf v reverse)

/-- `sort_key` from `prioritize_issues` in `_issues.py` (lines 296-314):
the tuple of per-key components, `none` when any component raises. -/
def sort_key (issue : IssueItem) : List (String × Bool) → Option SortKey
  | [] => some []
  | (f, reverse) :: rest =>
    match entryElem issue f reverse with
    | none => none
    | some e => (sort_key issue rest).map (e :: ·)

/-- Generic boolean lexicographic strict comparison of lists over a strict
comparison `lt` of elements, as Python compares lists and tuples: the
first position whose elements are ordered decides; a strict prefix is
smaller. -/
def lexLtB (lt : α → α → Bool) : List α → List α → Bool
  | [], [] => false
  | [], _ :: _ => true
  | _ :: _, [] => false
  | a :: as, b :: bs =>
    if lt a b then true else if lt b a then false else lexLtB lt as bs

/-- Strict comparison of code points (`Nat`). -/
def ltNatB (a b : Nat) : Bool := decide (a < b)

/-- Python string comparison: lexicographic on code points. -/
def ltNatListB : List Nat → List Nat → Bool := lexLtB ltNatB

/-- Comparison of two per-key components, i.e. of the encoded tuples
`(0, value)` / `(1, None)`: two values compare as strings, the
empty-marker sits strictly above every value and ties with itself. -/
def ltElemB : KeyElem → KeyElem → Bool
  | some x, some y => ltNatListB x y
  | some _, none => true
  | none, _ => false

/-- Python tuple comparison of two sort keys. -/
def ltKeyB : SortKey → SortKey → Bool := lexLtB ltElemB

/-- The default `sort_by` of `prioritize_issues`. -/
def DEFAULT_SORT_BY : List (String × Bool) :=
  [("due_date", false), ("milestone_title", true), ("epic_title", true),
   ("updated_at", true)]

/-- The non-strict order `sorted` establishes on decorated items
(item, key): `a` may precede `b` iff `b`'s key is not strictly below
`a`'s. -/
def decoLe (a b : IssueItem × SortKey) : Prop := ltKeyB b.2 a.2 = false

instance : DecidableRel decoLe :=
  fun a b => inferInstanceAs (Decidable (ltKeyB b.2 a.2 = false))

/-- `prioritize_issues` from `_issues.py` (lines 268-316): compute each
item's sort key once (as CPython's `sorted(key=...)` does), then stably
sort by key.  The whole call raises (`none`) as soon as one key raises.
`_replace_none_with_empty_string` is the identity here because the model's
fields are total strings already.  Called without `sort_by`, the default
spec is used (`sort_by is None` in the source). -/
def prioritize_issues (issues : List IssueItem)
    (sort_by : List (String × Bool) := DEFAULT_SORT_BY) :
    Option (List IssueItem) :=
  (issues.mapM (fun i => (sort_key i sort_by).map (fun k => (i, k)))).map
    (fun deco => (List.insertionSort decoLe deco).map Prod.fst)

/-! ### Order-theoretic facts about the boolean lexicographic comparison -/

theorem lexLtB_asymm {α : Type} {lt : α → α → Bool}
    (hA : ∀ a b, lt a b = true → lt b a = false) :
    ∀ x y, lexLtB lt x y = true → lexLtB lt y x = false := by
  intro x
  induction x with
  | nil =>
    intro y h
    cases y with
    | nil => simp [lexLtB] at h
    | cons b bs => simp [lexLtB]
  | cons a as ih =>
    intro y h
    cases y with
    | nil => simp [lexLtB] at h
    | cons b bs =>
      cases hab : lt a b with
      | true => simp [lexLtB, hab, hA a b hab]
      | false =>
        cases hba : lt b a with
        | true => simp [lexLtB, hab, hba] at h
        | false =>
          simp only [lexLtB, hab, hba, Bool.false_eq_true, if_false] at h ⊢
          exact ih bs h

theorem lexLtB_eq_of_not {α : Type} {lt : α → α → Bool}
    (hE : ∀ a b, lt a b = false → lt b a = false → a = b) :
    ∀ x y, lexLtB lt x y = false → lexLtB lt y x = false → x = y := by
  intro x
  induction x with
  | nil =>
    intro y h1 h2
    cases y with
    | nil => rfl
    | cons b bs => simp [lexLtB] at h1
  | cons a as ih =>
    intro y h1 h2
    cases y with
    | nil => simp [lexLtB] at h2
    | cons b bs =>
      cases hab : lt a b with
      | true => simp [lexLtB, hab] at h1
      | false =>
        cases hba : lt b a with
        | true => simp [lexLtB, hba] at h2
        | false =>
          simp only [lexLtB, hab, hba, Bool.false_eq_true, if_false] at h1 h2
          rw [hE a b hab hba, ih bs h1 h2]

theorem lexLtB_trans {α : Type} {lt : α → α → Bool}
    (hT : ∀ a b c, lt a b = true → lt b c = true → lt a c = true)
    (hE : ∀ a b, lt a b = false → lt b a = false → a = b) :
    ∀ x y z, lexLtB lt x y = true → lexLtB lt y z = true → lexLtB lt x z = true := by
  intro x
  induction x with
  | nil =>
    intro y z h1 h2
    cases y with
    | nil => simp [lexLtB] at h1
    | cons b bs =>
      cases z with
      | nil => simp [lexLtB] at h2
      | cons c cs => simp [lexLtB]
  | cons a as ih =>
    intro y z h1 h2
    cases y with
    | nil => simp [lexLtB] at h1
    | cons b bs =>
      cases z with
      | nil => simp [lexLtB] at h2
      | cons c cs =>
        cases hab : lt a b with
        | true =>
          cases hbc : lt b c with
          | true => simp [lexLtB, hT a b c hab hbc]
          | false =>
            cases hcb : lt c b with
            | true => simp [lexLtB, hbc, hcb] at h2
            | false =>
              rw [hE b c hbc hcb] at hab
              simp [lexLtB, hab]
        | false =>
          cases hba : lt b a with
          | true => simp [lexLtB, hab, hba] at h1
          | false =>
            have hab' := hE a b hab hba
            subst hab'
            simp only [lexLtB, hab, Bool.false_eq_true, if_false] at h1
            cases hac : lt a c with
            | true => simp [lexLtB, hac]
            | false =>
              cases hca : lt c a with
              | true => simp [lexLtB, hac, hca] at h2
              | false =>
                simp only [lexLtB, hac, hca, Bool.false_eq_true, if_false] at h2 ⊢
                exact ih bs cs h1 h2

theorem lexLtB_conn {α : Type} {lt : α → α → Bool}
    (hA : ∀ a b, lt a b = true → lt b a = false)
    (hT : ∀ a b c, lt a b = true → lt b c = true → lt a c = true)
    (hE : ∀ a b, lt a b = false → lt b a = false → a = b) :
    ∀ x y z, lexLtB lt x z = true →
      lexLtB lt x y = true ∨ lexLtB lt y z = true := by
  intro x
  induction x with
  | nil =>
    intro y z h
    cases z with
    | nil => simp [lexLtB] at h
    | cons c cs =>
      cases y with
      | nil => right; simp [lexLtB]
      | cons b bs => left; simp [lexLtB]
  | cons a as ih =>
    intro y z h
    cases z with
    | nil => simp [lexLtB] at h
    | cons c cs =>
      cases y with
      | nil => right; simp [lexLtB]
      | cons b bs =>
        cases hab : lt a b with
        | true => left; simp [lexLtB, hab]
        | false =>
          cases hba : lt b a with
          | true =>
            -- show lt b c so that the right disjunct holds by the head
            cases hbc : lt b c with
            | true => right; simp [lexLtB, hbc]
            | false =>
              cases hcb : lt c b with
              | true =>
                -- c < b and b < a give c < a, contradicting x < z
                have hca := hT c b a hcb hba
                have hac := hA c a hca
                simp [lexLtB, hac, hca] at h
              | false =>
                have hbc' := hE b c hbc hcb
                subst hbc'
                -- b = c, and b < a contradicts the head comparison of x < z
                cases hac : lt a b with
                | true => left; simp [lexLtB, hac]
                | false => simp [lexLtB, hac, hba] at h
          | false =>
            have hab' := hE a b hab hba
            subst hab'
            cases hac : lt a c with
            | true =>
              right; simp [lexLtB, hac]
            | false =>
              cases hca : lt c a with
              | true => simp [lexLtB, hac, hca] at h
              | false =>
                have haa : lt a a = false := by
                  cases hx : lt a a with
                  | false => rfl
                  | true => exact absurd (hA a a hx) (by simp [hx])
                simp only [lexLtB, hac, hca, haa, Bool.false_eq_true, if_false] at h ⊢
                rcases ih bs cs h with h' | h'
                · left; exact h'
                · right; exact h'

theorem ltNatB_asymm : ∀ a b : Nat, ltNatB a b = true → ltNatB b a = false := by
  intro a b h
  simp [ltNatB] at *
  omega

theorem ltNatB_trans : ∀ a b c : Nat,
    ltNatB a b = true → ltNatB b c = true → ltNatB a c = true := by
  intro a b c h1 h2
  simp [ltNatB] at *
  omega

theorem ltNatB_eq_of_not : ∀ a b : Nat,
    ltNatB a b = false → ltNatB b a = false → a = b := by
  intro a b h1 h2
  simp [ltNatB] at *
  omega

theorem ltNatListB_asymm : ∀ x y, ltNatListB x y = true → ltNatListB y x = false :=
  lexLtB_asymm ltNatB_asymm

theorem ltNatListB_trans : ∀ x y z,
    ltNatListB x y = true → ltNatListB y z = true → ltNatListB x z = true :=
  lexLtB_trans ltNatB_trans ltNatB_eq_of_not

theorem ltNatListB_eq_of_not : ∀ x y,
    ltNatListB x y = false → ltNatListB y x = false → x = y :=
  lexLtB_eq_of_not ltNatB_eq_of_not

theorem ltElemB_asymm : ∀ x y : KeyElem, ltElemB x y = true → ltElemB y x = false := by
  intro x y h
  cases x with
  | none => simp [ltElemB] at h
  | some xs =>
    cases y with
    | none => simp [ltElemB]
    | some ys => exact ltNatListB_asymm xs ys h

theorem ltElemB_trans : ∀ x y z : KeyElem,
    ltElemB x y = true → ltElemB y z = true → ltElemB x z = true := by
  intro x y z h1 h2
  cases x with
  | none => simp [ltElemB] at h1
  | some xs =>
    cases y with
    | none => simp [ltElemB] at h2
    | some ys =>
      cases z with
      | none => simp [ltElemB]
      | some zs => exact ltNatListB_trans xs ys zs h1 h2

theorem ltElemB_eq_of_not : ∀ x y : KeyElem,
    ltElemB x y = false → ltElemB y x = false → x = y := by
  intro x y h1 h2
  cases x with
  | none =>
    cases y with
    | none => rfl
    | some ys => simp [ltElemB] at h2
  | some xs =>
    cases y with
    | none => simp [ltElemB] at h1
    | some ys => rw [ltNatListB_eq_of_not xs ys h1 h2]

theorem ltElemB_irrefl : ∀ e : KeyElem, ltElemB e e = false := by
  intro e
  cases h : ltElemB e e with
  | false => rfl
  | true => exact absurd (ltElemB_asymm e e h) (by simp [h])

theorem ltKeyB_asymm : ∀ x y, ltKeyB x y = true → ltKeyB y x = false :=
  lexLtB_asymm ltElemB_asymm

theorem ltKeyB_conn : ∀ x y z, ltKeyB x z = true →
    ltKeyB x y = true ∨ ltKeyB y z = true :=
  lexLtB_conn ltElemB_asymm ltElemB_trans ltElemB_eq_of_not

instance : IsTotal (IssueItem × SortKey) decoLe :=
  ⟨fun a b => by
    unfold decoLe
    cases h : ltKeyB b.2 a.2 with
    | false => exact Or.inl rfl
    | true => exact Or.inr (ltKeyB_asymm _ _ h)⟩

instance : IsTrans (IssueItem × SortKey) decoLe :=
  ⟨fun a b c h1 h2 => by
    unfold decoLe at *
    cases h : ltKeyB c.2 a.2 with
    | false => rfl
    | true =>
      rcases ltKeyB_conn c.2 b.2 a.2 h with h' | h'
      · rw [h2] at h'; exact Bool.noConfusion h'
      · rw [h1] at h'; exact Bool.noConfusion h'⟩

/-! ### Small helpers about `Option`-valued `mapM` -/

theorem mapM_eq_none_of_mem {α β : Type} {f : α → Option β} :
    ∀ {l : List α} {x : α}, x ∈ l → f x = none → l.mapM f = none := by
  intro l
  induction l with
  | nil => intro x hx; exact absurd hx (List.not_mem_nil x)
  | cons a l ih =>
    intro x hx hfx
    rcases List.mem_cons.mp hx with rfl | hx'
    · rw [List.mapM_cons, hfx]
      rfl
    · rw [List.mapM_cons, ih hx' hfx]
      cases hfa : f a <;> rfl

theorem mapM_eq_some_of_forall {α β : Type} {f : α → Option β} :
    ∀ {l : List α}, (∀ x ∈ l, ∃ y, f x = some y) → ∃ l', l.mapM f = some l' := by
  intro l
  induction l with
  | nil => intro _; exact ⟨[], rfl⟩
  | cons a l ih =>
    intro h
    obtain ⟨y, hy⟩ := h a (List.mem_cons_self a l)
    obtain ⟨l', hl'⟩ := ih (fun x hx => h x (List.mem_cons_of_mem a hx))
    exact ⟨y :: l', by rw [List.mapM_cons, hy, hl']; rfl⟩

theorem mem_of_mapM_eq_some {α β : Type} {f : α → Option β} :
    ∀ {l : List α} {l' : List β}, l.mapM f = some l' →
      ∀ p ∈ l', ∃ x ∈ l, f x = some p := by
  intro l
  induction l with
  | nil =>
    intro l' h p hp
    have h' : ([] : List β) = l' := by injection h
    subst h'
    exact absurd hp (List.not_mem_nil p)
  | cons a l ih =>
    intro l' h p hp
    rw [List.mapM_cons] at h
    cases hfa : f a with
    | none =>
      rw [hfa] at h
      exact Option.noConfusion h
    | some y =>
      cases hml : l.mapM f with
      | none =>
        rw [hfa, hml] at h
        exact Option.noConfusion h
      | some ys =>
        rw [hfa, hml] at h
        have h' : y :: ys = l' := by injection h
        subst h'
        rcases List.mem_cons.mp hp with rfl | hp'
        · exact ⟨a, List.mem_cons_self a l, hfa⟩
        · obtain ⟨x, hx, hfx⟩ := ih hml p hp'
          exact ⟨x, List.mem_cons_of_mem a hx, hfx⟩

/-! ### Facts about the assignee rendering -/

theorem sort_assignees_erase_cons (l : List String) (u x : String) (xs : List String)
    (h : l.erase u = x :: xs) :
    sort_assignees l u = "Me, " ++ pyJoin ", " (x :: xs) := by
  simp only [sort_assignees]
  rw [h, if_neg (by simp)]
  rfl

theorem sort_assignees_empty_iff (l : List String) (u : String) :
    sort_assignees l u = "" ↔ l.erase u = [] := by
  constructor
  · intro h
    cases herase : l.erase u with
    | nil => rfl
    | cons x xs =>
      rw [sort_assignees_erase_cons l u x xs herase] at h
      have hlen := congrArg String.length h
      rw [String.length_append] at hlen
      simp at hlen
      exact absurd hlen.1 (by decide)
  · intro h
    simp only [sort_assignees]
    rw [h, if_pos rfl]

/-! ### Dict lemmas for the override store -/

theorem dictGet_eq_none_of_not_mem (k : String) :
    ∀ d : List (String × Int), k ∉ d.map Prod.fst → dictGet k d = none := by
  intro d
  induction d with
  | nil => intro _; rfl
  | cons p rest ih =>
    intro h
    obtain ⟨k', v'⟩ := p
    simp only [List.map_cons, List.mem_cons] at h
    push_neg at h
    simp only [dictGet]
    rw [if_neg (fun hk => h.1 hk.symm)]
    exact ih h.2

theorem dictGet_dictSet (k : String) (v : Int) :
    ∀ d : List (String × Int), dictGet k (dictSet k v d) = some v := by
  intro d
  induction d with
  | nil => simp [dictSet, dictGet]
  | cons p rest ih =>
    obtain ⟨k', v'⟩ := p
    by_cases h : k' = k
    · simp [dictSet, h, dictGet]
    · simp only [dictSet, if_neg h, dictGet]
      exact ih

theorem dictGet_dictPop (k : String) :
    ∀ d : List (String × Int), (d.map Prod.fst).Nodup →
      dictGet k (dictPop k d) = none := by
  intro d
  induction d with
  | nil => intro _; rfl
  | cons p rest ih =>
    intro hnd
    obtain ⟨k', v'⟩ := p
    simp only [List.map_cons, List.nodup_cons] at hnd
    by_cases h : k' = k
    · simp only [dictPop, if_pos h]
      subst h
      exact dictGet_eq_none_of_not_mem k' rest hnd.1
    · simp only [dictPop, if_neg h, dictGet]
      exact ih hnd.2

theorem mem_keys_dictSet (k : String) (v : Int) :
    ∀ (d : List (String × Int)) (x : String),
      x ∈ (dictSet k v d).map Prod.fst → x = k ∨ x ∈ d.map Prod.fst := by
  intro d
  induction d with
  | nil => intro x hx; simp [dictSet] at hx; exact Or.inl hx
  | cons p rest ih =>
    intro x hx
    obtain ⟨k', v'⟩ := p
    by_cases h : k' = k
    · simp only [dictSet, if_pos h, List.map_cons, List.mem_cons] at hx
      rcases hx with rfl | hx
      · exact Or.inl rfl
      · exact Or.inr (by simp [hx])
    · simp only [dictSet, if_neg h, List.map_cons, List.mem_cons] at hx
      rcases hx with rfl | hx
      · exact Or.inr (by simp)
      · rcases ih x hx with h' | h'
        · exact Or.inl h'
        · exact Or.inr (by simp [h'])

theorem nodup_keys_dictSet (k : String) (v : Int) :
    ∀ d : List (String × Int), (d.map Prod.fst).Nodup →
      ((dictSet k v d).map Prod.fst).Nodup := by
  intro d
  induction d with
  | nil => intro _; simp [dictSet]
  | cons p rest ih =>
    intro hnd
    obtain ⟨k', v'⟩ := p
    simp only [List.map_cons, List.nodup_cons] at hnd
    by_cases h : k' = k
    · simp only [dictSet, if_pos h, List.map_cons, List.nodup_cons]
      subst h
      exact ⟨hnd.1, hnd.2⟩
    · simp only [dictSet, if_neg h, List.map_cons, List.nodup_cons]
      refine ⟨fun hx => ?_, ih hnd.2⟩
      rcases mem_keys_dictSet k v rest k' hx with rfl | h'
      · exact h rfl
      · exact hnd.1 h'

/-! ### Claims about the assignee rendering (C5, C9) -/

/-- C5: for every assignee list and requesting user, the user's own handle
is removed from the list; when no other assignee remains the rendered
string is empty (and only then), and when other assignees remain the
rendering is `"Me, "` followed by the remaining names joined by `", "`. -/
theorem claim_C5 :
    ∀ (assignees : List String) (my_user_name : String),
      (sort_assignees assignees my_user_name = ""
        ↔ assignees.erase my_user_name = [])
      ∧ (∀ x xs, assignees.erase my_user_name = x :: xs →
          sort_assignees assignees my_user_name = "Me, " ++ pyJoin ", " (x :: xs)) := by
  intro assignees my_user_name
  exact ⟨sort_assignees_empty_iff assignees my_user_name,
    fun x xs h => sort_assignees_erase_cons assignees my_user_name x xs h⟩

/-- C5 witness: the spec's two examples, `["me", "bob"]` with requesting
user `"me"` renders `"Me, bob"`, and `["me"]` renders `""`. -/
theorem claim_C5_witness :
    sort_assignees ["me", "bob"] "me" = "Me, bob"
    ∧ sort_assignees ["me"] "me" = "" := by
  constructor
  · rw [(claim_C5 ["me", "bob"] "me").2 "bob" [] (by decide)]
    rfl
  · exact (claim_C5 ["me"] "me").1.mpr (by decide)

/-- C9: whenever anything remains after removing at most one occurrence of
the requesting user's handle, the rendered string starts with `"Me, "` —
also when the user was not in the list at all; and only the first
occurrence of the user's handle is removed, so a duplicated own handle
stays in the rendered list. -/
theorem claim_C9 :
    ∀ (assignees : List String) (my_user_name : String),
      (assignees.erase my_user_name ≠ [] →
        ∃ rest, sort_assignees assignees my_user_name = "Me, " ++ rest)
      ∧ (2 ≤ assignees.count my_user_name →
          my_user_name ∈ assignees.erase my_user_name
          ∧ sort_assignees assignees my_user_name
              = "Me, " ++ pyJoin ", " (assignees.erase my_user_name)) := by
  intro assignees my_user_name
  constructor
  · intro h
    cases herase : assignees.erase my_user_name with
    | nil => exact absurd herase h
    | cons x xs =>
      exact ⟨pyJoin ", " (x :: xs),
        sort_assignees_erase_cons assignees my_user_name x xs herase⟩
  · intro h
    have hcount : 0 < (assignees.erase my_user_name).count my_user_name := by
      rw [List.count_erase_self]
      omega
    have hmem := List.count_pos_iff.mp hcount
    refine ⟨hmem, ?_⟩
    cases herase : assignees.erase my_user_name with
    | nil => rw [herase] at hmem; exact absurd hmem (List.not_mem_nil _)
    | cons x xs =>
      rw [sort_assignees_erase_cons assignees my_user_name x xs herase]

/-- C9 witness: `["alice", "bob"]` with requesting user `"me"` (absent)
still renders with the `"Me, "` prefix, and with the duplicated own handle
`["me", "me"]` one `"me"` is kept and rendered. -/
theorem claim_C9_witness :
    (∃ rest, sort_assignees ["alice", "bob"] "me" = "Me, " ++ rest)
    ∧ "me" ∈ (["me", "me"].erase "me")
    ∧ sort_assignees ["me", "me"] "me"
        = "Me, " ++ pyJoin ", " (["me", "me"].erase "me") := by
  refine ⟨(claim_C9 ["alice", "bob"] "me").1 (by decide), ?_, ?_⟩
  · exact ((claim_C9 ["me", "me"] "me").2 (by norm_num)).1
  · exact ((claim_C9 ["me", "me"] "me").2 (by norm_num)).2

/-! ### Claim about the relative-age string (C7) -/

/-- C7 counterexample: an `updated_at` 400 days in the past yields
`"1 year ago"` — singular, since `400 / 365 = 1` — so the claimed plural
suffix `"years ago"` does not occur. -/
theorem claim_C7_counterexample :
    time_ago (400 * 86400) = "1 year ago"
    ∧ List.isSuffixOf "years ago".data (time_ago (400 * 86400)).data = false := by
  constructor
  · rfl
  · decide

/-- C7 (amended): the first matching bucket of the precedence
`≥ 365 days → years`, `≥ 30 days → months`, `≥ 7 days → weeks`,
`≥ 1 day → days`, `≥ 3600 s → hours`, `≥ 60 s → minutes`, else
`"Just now"` is taken, with the unit count the floor quotient of the
elapsed time and the whole-unit length and an `"s"` appended exactly when
that count exceeds 1 (so 400 elapsed days give the singular
`"1 year ago"`, as does exactly 365 days). -/
theorem claim_C7 (t : Nat) :
    (31536000 ≤ t → time_ago t = unitStr (t / 31536000) " year")
    ∧ (2592000 ≤ t → t < 31536000 → time_ago t = unitStr (t / 2592000) " month")
    ∧ (604800 ≤ t → t < 2592000 → time_ago t = unitStr (t / 604800) " week")
    ∧ (86400 ≤ t → t < 604800 → time_ago t = unitStr (t / 86400) " day")
    ∧ (3600 ≤ t → t < 86400 → time_ago t = unitStr (t / 3600) " hour")
    ∧ (60 ≤ t → t < 3600 → time_ago t = unitStr (t / 60) " minute")
    ∧ (t < 60 → time_ago t = "Just now") := by
  have h0 : (0 : Nat) < 86400 := by norm_num
  refine ⟨?_, ?_, ?_, ?_, ?_, ?_, ?_⟩
  · intro h
    have h1 : 365 ≤ t / 86400 := (Nat.le_div_iff_mul_le h0).mpr (by omega)
    simp only [time_ago, unitStr, ge_iff_le]
    rw [if_pos h1, Nat.div_div_eq_div_mul]
  · intro h h'
    have h1 : t / 86400 < 365 := (Nat.div_lt_iff_lt_mul h0).mpr (by omega)
    have h2 : 30 ≤ t / 86400 := (Nat.le_div_iff_mul_le h0).mpr (by omega)
    simp only [time_ago, unitStr, ge_iff_le]
    rw [if_neg (by omega), if_pos h2, Nat.div_div_eq_div_mul]
  · intro h h'
    have h1 : t / 86400 < 30 := (Nat.div_lt_iff_lt_mul h0).mpr (by omega)
    have h2 : 7 ≤ t / 86400 := (Nat.le_div_iff_mul_le h0).mpr (by omega)
    simp only [time_ago, unitStr, ge_iff_le]
    rw [if_neg (by omega), if_neg (by omega), if_pos h2, Nat.div_div_eq_div_mul]
  · intro h h'
    have h1 : t / 86400 < 7 := (Nat.div_lt_iff_lt_mul h0).mpr (by omega)
    have h2 : 1 ≤ t / 86400 := (Nat.le_div_iff_mul_le h0).mpr (by omega)
    simp only [time_ago, unitStr, ge_iff_le]
    rw [if_neg (by omega), if_neg (by omega), if_neg (by omega), if_pos (by omega)]
  · intro h h'
    have h1 : t / 86400 = 0 := Nat.div_eq_of_lt h'
    have h2 : t % 86400 = t := Nat.mod_eq_of_lt h'
    simp only [time_ago, unitStr, ge_iff_le, h1, h2]
    rw [if_neg (by omega), if_neg (by omega), if_neg (by omega), if_neg (by omega),
      if_pos h]
  · intro h h'
    have h1 : t / 86400 = 0 := Nat.div_eq_of_lt (by omega)
    have h2 : t % 86400 = t := Nat.mod_eq_of_lt (by omega)
    simp only [time_ago, unitStr, ge_iff_le, h1, h2]
    rw [if_neg (by omega), if_neg (by omega), if_neg (by omega), if_neg (by omega),
      if_neg (by omega), if_pos h]
  · intro h
    have h1 : t / 86400 = 0 := Nat.div_eq_of_lt (by omega)
    have h2 : t % 86400 = t := Nat.mod_eq_of_lt (by omega)
    simp only [time_ago, ge_iff_le, h1, h2]
    rw [if_neg (by omega), if_neg (by omega), if_neg (by omega), if_neg (by omega),
      if_neg (by omega), if_neg (by omega)]

/-- C7 witness: 800 elapsed days give the plural `"2 years ago"`, exactly
365 days the singular `"1 year ago"`. -/
theorem claim_C7_witness :
    time_ago (800 * 86400) = "2 years ago"
    ∧ time_ago (365 * 86400) = "1 year ago" := by
  constructor
  · rw [(claim_C7 (800 * 86400)).1 (by norm_num)]
    rfl
  · rw [(claim_C7 (365 * 86400)).1 (by norm_num)]
    rfl

/-! ### Claim about the override store (C4) -/

theorem set_ranking_of_get_eq (issue rank : String) (cfg : List (String × Int))
    (hne : issue ≠ "") (h : dictGet issue cfg = some (rankValue rank)) :
    set_ranking issue rank cfg = dictPop issue cfg := by
  simp only [set_ranking]
  rw [if_pos hne, if_pos h]

theorem set_ranking_of_get_ne (issue rank : String) (cfg : List (String × Int))
    (hne : issue ≠ "") (h : dictGet issue cfg ≠ some (rankValue rank)) :
    set_ranking issue rank cfg = dictSet issue (rankValue rank) cfg := by
  simp only [set_ranking]
  rw [if_pos hne, if_neg h]

/-- C4 counterexample: starting from a configuration that already stores
`rankValue "pin"` for issue `"x"`, two consecutive identical
`set_ranking "x" "pin"` calls leave `"x"` with a stored override (the
first call removes it, the second writes it back), and for the empty issue
id a stored override equal to the new value is not deleted. -/
theorem claim_C4_counterexample :
    dictGet "x" (set_ranking "x" "pin" (set_ranking "x" "pin" [("x", RANK_PIN)]))
        = some RANK_PIN
    ∧ dictGet "x" (set_ranking "x" "pin" (set_ranking "x" "pin" [("x", RANK_PIN)]))
        ≠ none
    ∧ set_ranking "" "normal" [("", RANK_NORMAL)] = [("", RANK_NORMAL)] := by
  refine ⟨by decide, by decide, by decide⟩

/-- C4 (amended): for a non-empty issue id on a duplicate-free
configuration (the dict invariant), a `set_ranking` call whose rank value
equals the stored override pops the entry, leaving the id with no
override; and two consecutive identical calls starting from a state whose
stored override for the id is *not* already that value (e.g. the default,
no entry) leave the id with no override. -/
theorem claim_C4 :
    ∀ (issue rank : String) (config : List (String × Int)),
      (config.map Prod.fst).Nodup → issue ≠ "" →
      ((dictGet issue config = some (rankValue rank) →
          set_ranking issue rank config = dictPop issue config
          ∧ dictGet issue (set_ranking issue rank config) = none)
       ∧ (dictGet issue config ≠ some (rankValue rank) →
          dictGet issue (set_ranking issue rank (set_ranking issue rank config))
            = none)) := by
  intro issue rank config hnd hne
  constructor
  · intro h
    have heq := set_ranking_of_get_eq issue rank config hne h
    exact ⟨heq, by rw [heq]; exact dictGet_dictPop issue config hnd⟩
  · intro h
    have heq1 := set_ranking_of_get_ne issue rank config hne h
    have hget : dictGet issue (set_ranking issue rank config)
        = some (rankValue rank) := by
      rw [heq1]
      exact dictGet_dictSet issue (rankValue rank) config
    have heq2 := set_ranking_of_get_eq issue rank (set_ranking issue rank config)
      hne hget
    rw [heq2, heq1]
    exact dictGet_dictPop issue _ (nodup_keys_dictSet issue (rankValue rank) config hnd)

/-- C4 witness: with issue `"x"` stored at the pin rank, a repeated
`"high"` ranking toggles on and back off (no override remains), and a
single `"pin"` call deletes the matching stored override. -/
theorem claim_C4_witness :
    dictGet "x" (set_ranking "x" "high" (set_ranking "x" "high" [("x", RANK_PIN)]))
        = none
    ∧ dictGet "x" (set_ranking "x" "pin" [("x", RANK_PIN)]) = none := by
  constructor
  · exact ((claim_C4 "x" "high" [("x", RANK_PIN)] (by decide) (by decide)).2
      (by decide))
  · exact ((claim_C4 "x" "pin" [("x", RANK_PIN)] (by decide) (by decide)).1
      (by decide)).2

/-! ### Claim about aggregation across sources (C2) -/

/-- The concatenation, in configuration order, of the items fetched by the
github/gitlab sources, reading a failed fetch as contributing nothing —
the value `get_all_issues` returns when every fetch succeeds. -/
def fetchedItems : List ConfiguredService → List IssueItem
  | [] => []
  | s :: rest =>
    (if s.kind = "github" ∨ s.kind = "gitlab" then
      (match s.fetch with
       | .ok items => items
       | .error _ => [])
     else []) ++ fetchedItems rest

/-- Unfolding of `get_all_issues` at a cons: a github/gitlab source binds
its fetch and prepends its items, any other source kind is skipped. -/
theorem get_all_issues_cons (s : ConfiguredService) (rest : List ConfiguredService) :
    get_all_issues (s :: rest) =
      if s.kind = "github" ∨ s.kind = "gitlab" then
        Except.bind s.fetch (fun items =>
          Except.bind (get_all_issues rest) (fun more => .ok (items ++ more)))
      else get_all_issues rest := by
  by_cases h1 : s.kind = "github"
  · simp [get_all_issues, h1]
    rfl
  · by_cases h2 : s.kind = "gitlab"
    · simp [get_all_issues, h1, h2]
      rfl
    · simp [get_all_issues, h1, h2]

/-- C2 counterexample: with a first (github) source whose fetch raises and
a second (gitlab) source that returns one item, `get_all_issues` raises
the first source's error instead of returning the other source's items —
the failure does cascade. -/
theorem claim_C2_counterexample :
    get_all_issues
        [⟨"a", "github", .error "auth"⟩, ⟨"b", "gitlab", .ok [{ title := "t" }]⟩]
      = .error "auth"
    ∧ get_all_issues
        [⟨"a", "github", .error "auth"⟩, ⟨"b", "gitlab", .ok [{ title := "t" }]⟩]
      ≠ .ok [{ title := "t" }] := by
  have h1 : get_all_issues
      [⟨"a", "github", .error "auth"⟩, ⟨"b", "gitlab", .ok [{ title := "t" }]⟩]
      = .error "auth" := rfl
  refine ⟨h1, ?_⟩
  rw [h1]
  exact fun h => Except.noConfusion h

/-- C2 (amended): `get_all_issues` has no per-source error handling: when
every configured source's fetch succeeds it returns the concatenation of
the github/gitlab sources' items in configuration order, but as soon as
one github/gitlab source's fetch raises (all sources before it having
succeeded), the whole aggregation raises that error and no partial result
is returned. -/
theorem claim_C2 :
    (∀ services : List ConfiguredService,
      (∀ s ∈ services, ∃ items, s.fetch = .ok items) →
      get_all_issues services = .ok (fetchedItems services))
    ∧ (∀ (pre : List ConfiguredService) (name kind e : String)
        (post : List ConfiguredService),
      (∀ s ∈ pre, ∃ items, s.fetch = .ok items) →
      (kind = "github" ∨ kind = "gitlab") →
      get_all_issues (pre ++ ⟨name, kind, .error e⟩ :: post) = .error e) := by
  constructor
  · intro services h
    induction services with
    | nil => rfl
    | cons s rest ih =>
      obtain ⟨items, hitems⟩ := h s (List.mem_cons_self s rest)
      have hrest := ih (fun x hx => h x (List.mem_cons_of_mem s hx))
      rw [get_all_issues_cons, hitems, hrest]
      simp only [fetchedItems, hitems]
      by_cases hc : s.kind = "github" ∨ s.kind = "gitlab"
      · rw [if_pos hc, if_pos hc]
        rfl
      · rw [if_neg hc, if_neg hc]
        simp
  · intro pre name kind e post h hkind
    induction pre with
    | nil =>
      rw [List.nil_append, get_all_issues_cons, if_pos hkind]
      rfl
    | cons s rest ih =>
      obtain ⟨items, hitems⟩ := h s (List.mem_cons_self s rest)
      have htail := ih (fun x hx => h x (List.mem_cons_of_mem s hx))
      rw [List.cons_append, get_all_issues_cons, hitems, htail]
      by_cases hc : s.kind = "github" ∨ s.kind = "gitlab"
      · rw [if_pos hc]
        rfl
      · rw [if_neg hc]

/-- C2 witness: two succeeding sources aggregate to the concatenation; an
ok gitlab source followed by a failing github source aggregates to the
error. -/
theorem claim_C2_witness :
    get_all_issues
        [⟨"a", "github", .ok [{ title := "t" }]⟩, ⟨"b", "gitlab", .ok [{ title := "u" }]⟩]
      = .ok (fetchedItems
        [⟨"a", "github", .ok [{ title := "t" }]⟩, ⟨"b", "gitlab", .ok [{ title := "u" }]⟩])
    ∧ get_all_issues
        [⟨"a", "gitlab", .ok [{ title := "t" }]⟩, ⟨"b", "github", .error "net"⟩]
      = .error "net" := by
  constructor
  · refine claim_C2.1 _ ?_
    intro s hs
    rcases List.mem_cons.mp hs with rfl | hs'
    · exact ⟨_, rfl⟩
    rcases List.mem_cons.mp hs' with rfl | hs''
    · exact ⟨_, rfl⟩
    · exact absurd hs'' (List.not_mem_nil _)
  · refine claim_C2.2 [⟨"a", "gitlab", .ok [{ title := "t" }]⟩] "b" "github" "net" []
      ?_ (Or.inl rfl)
    intro s hs
    rcases List.mem_cons.mp hs with rfl | hs'
    · exact ⟨_, rfl⟩
    · exact absurd hs' (List.not_mem_nil _)

/-! ### Claim about per-record normalization failures (C3) -/

/-- C3 counterexample: a batch of three raw records whose middle record
has an unparsable timestamp makes `_import_github_issues` raise the
`ValueError` for the whole batch — nothing is returned for the two good
records — although the same two good records normalize fine on their own. -/
theorem claim_C3_counterexample :
    import_github_issues 1000
        [⟨.str (some 100), ["bob"], some "m1", "/org/repo/issues/1", "one", false⟩,
         ⟨.str none, [], none, "/org/repo/issues/2", "two", false⟩,
         ⟨.dt 200, [], none, "/org/repo/pull/3", "three", true⟩] "me"
      = .error "Unrecognized timestamp format"
    ∧ (import_github_issues 1000
        [⟨.str (some 100), ["bob"], some "m1", "/org/repo/issues/1", "one", false⟩,
         ⟨.dt 200, [], none, "/org/repo/pull/3", "three", true⟩] "me").isOk = true := by
  exact ⟨rfl, rfl⟩

/-- Unfolding of `_import_github_issues` at a cons: convert the
timestamp, build the item, recurse. -/
theorem import_github_issues_cons (now : Nat) (r : RawGithubIssue)
    (rest : List RawGithubIssue) (myuser : String) :
    import_github_issues now (r :: rest) myuser =
      Except.bind (convert_to_datetime r.updated_at) (fun e =>
        Except.bind (import_github_issues now rest myuser) (fun ds =>
          .ok ({ updated_at := e
                 updated_at_display := time_ago (now - e)
                 assignee_users := sort_assignees r.assignees myuser
                 due_date := ""
                 epic_title := ""
                 milestone_title := match r.milestone with | some t => t | none => ""
                 ref := gh_url_to_ref r.html_url_path
                 title := r.title
                 web_url := r.html_url_path
                 pull := r.pull_request_present
                 service := "github" } :: ds))) := rfl

/-- C3 (amended): `_import_github_issues` drops no record: when every raw
record's timestamp parses, the batch normalizes to one item per record,
and as soon as one record's timestamp is unparsable the `ValueError`
propagates and the whole batch import raises (the good records before and
after it are discarded).  No record silently defaults to "now". -/
theorem claim_C3 :
    (∀ (now : Nat) (issues : List RawGithubIssue) (myuser : String),
      (∀ r ∈ issues, ∃ e, convert_to_datetime r.updated_at = .ok e) →
      ∃ items, import_github_issues now issues myuser = .ok items
        ∧ items.length = issues.length)
    ∧ (∀ (now : Nat) (pre : List RawGithubIssue) (bad : RawGithubIssue)
        (post : List RawGithubIssue) (myuser msg : String),
      (∀ r ∈ pre, ∃ e, convert_to_datetime r.updated_at = .ok e) →
      convert_to_datetime bad.updated_at = .error msg →
      import_github_issues now (pre ++ bad :: post) myuser = .error msg) := by
  constructor
  · intro now issues myuser h
    induction issues with
    | nil => exact ⟨[], rfl, rfl⟩
    | cons r rest ih =>
      obtain ⟨e, he⟩ := h r (List.mem_cons_self r rest)
      obtain ⟨items, hok, hlen⟩ := ih (fun x hx => h x (List.mem_cons_of_mem r hx))
      rw [import_github_issues_cons, he, hok]
      exact ⟨_, rfl, by simp [hlen]⟩
  · intro now pre bad post myuser msg h hbad
    induction pre with
    | nil =>
      rw [List.nil_append, import_github_issues_cons, hbad]
      rfl
    | cons r rest ih =>
      obtain ⟨e, he⟩ := h r (List.mem_cons_self r rest)
      have htail := ih (fun x hx => h x (List.mem_cons_of_mem r hx))
      rw [List.cons_append, import_github_issues_cons, he, htail]
      rfl

/-- C3 witness: a one-record batch with a parsable timestamp imports ok;
a batch holding an unparsable record raises. -/
theorem claim_C3_witness :
    (import_github_issues 5 [⟨.dt 1, [], none, "", "t", false⟩] "me").isOk = true
    ∧ import_github_issues 0 [⟨.str none, [], none, "", "x", false⟩] "me"
        = .error "Unrecognized timestamp format" := by
  constructor
  · obtain ⟨items, hok, _⟩ := claim_C3.1 5 [⟨.dt 1, [], none, "", "t", false⟩] "me"
      (by intro r hr
          rcases List.mem_cons.mp hr with rfl | hr'
          · exact ⟨1, rfl⟩
          · exact absurd hr' (List.not_mem_nil _))
    rw [hok]
    rfl
  · exact claim_C3.2 0 [] ⟨.str none, [], none, "", "x", false⟩ [] "me"
      "Unrecognized timestamp format"
      (fun r hr => absurd hr (List.not_mem_nil _)) rfl

/-! ### Claim about the stats calculator (C8) -/

theorem stats_step_service (st : IssuesStats) (i : IssueItem)
    (h : i.service = "gitlab" ∨ i.service = "github") :
    ∃ st', stats_step st i = some st'
      ∧ st'.total = st.total + 1
      ∧ st'.gitlab + st'.github = st.gitlab + st.github + 1
      ∧ st'.pulls + st'.issues = st.pulls + st.issues + 1
      ∧ st'.due_dates_total
          = st.due_dates_total + (if i.due_date ≠ "" then 1 else 0)
      ∧ st'.milestones_total
          = st.milestones_total + (if i.milestone_title ≠ "" then 1 else 0)
      ∧ st'.epics_total
          = st.epics_total + (if i.epic_title ≠ "" then 1 else 0) := by
  rcases h with h | h <;>
    (cases hp : i.pull <;>
      · refine ⟨_, by simp [stats_step, h, hp, statFieldGet, statFieldSet]; rfl,
          ?_, ?_, ?_, ?_, ?_, ?_⟩ <;> simp <;> omega)

theorem get_issues_stats_aux :
    ∀ (issues : List IssueItem) (st : IssuesStats),
      (∀ i ∈ issues, i.service = "gitlab" ∨ i.service = "github") →
      ∃ out, List.foldlM stats_step st issues = some out
        ∧ out.total = st.total + issues.length
        ∧ out.gitlab + out.github = st.gitlab + st.github + issues.length
        ∧ out.pulls + out.issues = st.pulls + st.issues + issues.length
        ∧ out.due_dates_total = st.due_dates_total
            + List.countP (fun i => decide (i.due_date ≠ "")) issues
        ∧ out.milestones_total = st.milestones_total
            + List.countP (fun i => decide (i.milestone_title ≠ "")) issues
        ∧ out.epics_total = st.epics_total
            + List.countP (fun i => decide (i.epic_title ≠ "")) issues := by
  intro issues
  induction issues with
  | nil =>
    intro st h
    exact ⟨st, rfl, by simp, by simp, by simp, by simp, by simp, by simp⟩
  | cons i rest ih =>
    intro st h
    obtain ⟨st1, hstep, e1, e2, e3, e4, e5, e6⟩ :=
      stats_step_service st i (h i (List.mem_cons_self i rest))
    obtain ⟨out, hout, f1, f2, f3, f4, f5, f6⟩ :=
      ih st1 (fun x hx => h x (List.mem_cons_of_mem i hx))
    refine ⟨out, ?_, ?_, ?_, ?_, ?_, ?_, ?_⟩
    · rw [List.foldlM_cons, hstep]
      exact hout
    · simp only [List.length_cons]; omega
    · simp only [List.length_cons]; omega
    · simp only [List.length_cons]; omega
    · simp only [List.countP_cons, decide_eq_true_eq]; omega
    · simp only [List.countP_cons, decide_eq_true_eq]; omega
    · simp only [List.countP_cons, decide_eq_true_eq]; omega

/-- C8: for every item list whose service tags are all `"gitlab"` or
`"github"`, the stats pass succeeds and satisfies `total` = length,
`pulls + issues = total`, `gitlab + github = total`, and each of
`due_dates_total`, `milestones_total`, `epics_total` equals the number of
items whose corresponding string field is non-empty and is at most
`total`. -/
theorem claim_C8 :
    ∀ issues : List IssueItem,
      (∀ i ∈ issues, i.service = "gitlab" ∨ i.service = "github") →
      ∃ stats, get_issues_stats issues = some stats
        ∧ stats.total = issues.length
        ∧ stats.pulls + stats.issues = stats.total
        ∧ stats.gitlab + stats.github = stats.total
        ∧ stats.due_dates_total
            = List.countP (fun i => decide (i.due_date ≠ "")) issues
        ∧ stats.due_dates_total ≤ stats.total
        ∧ stats.milestones_total
            = List.countP (fun i => decide (i.milestone_title ≠ "")) issues
        ∧ stats.milestones_total ≤ stats.total
        ∧ stats.epics_total
            = List.countP (fun i => decide (i.epic_title ≠ "")) issues
        ∧ stats.epics_total ≤ stats.total := by
  intro issues h
  obtain ⟨out, hout, h1, h2, h3, h4, h5, h6⟩ := get_issues_stats_aux issues {} h
  have hd := List.countP_le_length (fun i => decide (i.due_date ≠ ""))
    (l := issues)
  have hm := List.countP_le_length (fun i => decide (i.milestone_title ≠ ""))
    (l := issues)
  have he := List.countP_le_length (fun i => decide (i.epic_title ≠ ""))
    (l := issues)
  refine ⟨out, hout, ?_, ?_, ?_, ?_, ?_, ?_, ?_, ?_, ?_⟩ <;>
    simp only [IssuesStats.mk.injEq] at * <;> omega

/-- C8 witness: one gitlab issue with a due date plus one github pull give
total 2, one of each service, one pull and one issue, one due date, no
milestone and no epic. -/
theorem claim_C8_witness :
    get_issues_stats
        [{ service := "gitlab", due_date := "2024-01-01" },
         { service := "github", pull := true }]
      = some ⟨2, 1, 1, 1, 1, 1, 0, 0⟩
    ∧ (2 : Nat) = [({ service := "gitlab", due_date := "2024-01-01" } : IssueItem),
         { service := "github", pull := true }].length := by
  obtain ⟨stats, hsome, htot, _⟩ := claim_C8
    [{ service := "gitlab", due_date := "2024-01-01" },
     { service := "github", pull := true }]
    (by intro i hi
        rcases List.mem_cons.mp hi with rfl | hi'
        · exact Or.inl rfl
        rcases List.mem_cons.mp hi' with rfl | hi''
        · exact Or.inr rfl
        · exact absurd hi'' (List.not_mem_nil _))
  have hconc : get_issues_stats
      [{ service := "gitlab", due_date := "2024-01-01" },
       { service := "github", pull := true }]
      = some ⟨2, 1, 1, 1, 1, 1, 0, 0⟩ := by decide
  have heq : stats = ⟨2, 1, 1, 1, 1, 1, 0, 0⟩ :=
    Option.some.inj (hsome.symm.trans hconc)
  subst heq
  exact ⟨hsome, htot.symm⟩

/-! ### Claim about (non-)totality of descending keys (C10) -/

theorem keyElemOf_some_of_le (v : Value) (reverse : Bool)
    (h : reverse = true → ∀ c ∈ convertedValue v, c ≤ 255) :
    ∃ e, keyElemOf v reverse = some e := by
  simp only [keyElemOf]
  by_cases hv : convertedValue v = []
  · exact ⟨none, by rw [if_pos hv]⟩
  · rw [if_neg hv]
    cases reverse with
    | false => exact ⟨some (convertedValue v), rfl⟩
    | true =>
      obtain ⟨w, hw⟩ := mapM_eq_some_of_forall
        (f := fun c => if c ≤ 255 then some (255 - c) else none)
        (l := convertedValue v)
        (fun c hc => ⟨255 - c, if_pos (h rfl c hc)⟩)
      exact ⟨some w, by rw [if_pos rfl, hw]; rfl⟩

theorem keyElemOf_none_of_gt (v : Value) (c : Nat)
    (hc : c ∈ convertedValue v) (hgt : 255 < c) :
    keyElemOf v true = none := by
  have hv : convertedValue v ≠ [] := List.ne_nil_of_mem hc
  simp only [keyElemOf]
  rw [if_neg hv]
  rw [if_pos trivial, mapM_eq_none_of_mem hc (if_neg (by omega))]
  rfl

theorem sort_key_some (issue : IssueItem) :
    ∀ sort_by : List (String × Bool),
      (∀ fr ∈ sort_by, ∃ v, getattrSort issue fr.1 = some v
        ∧ (fr.2 = true → ∀ c ∈ convertedValue v, c ≤ 255)) →
      ∃ k, sort_key issue sort_by = some k := by
  intro sort_by
  induction sort_by with
  | nil => intro _; exact ⟨[], rfl⟩
  | cons fr rest ih =>
    intro h
    obtain ⟨v, hv, hcond⟩ := h fr (List.mem_cons_self fr rest)
    obtain ⟨e, he⟩ := keyElemOf_some_of_le v fr.2 hcond
    obtain ⟨k, hk⟩ := ih (fun x hx => h x (List.mem_cons_of_mem fr hx))
    obtain ⟨f, rev⟩ := fr
    exact ⟨e :: k, by simp [sort_key, entryElem, hv, he, hk]⟩

theorem sort_key_none_of_bad_entry (issue : IssueItem) :
    ∀ (sort_by : List (String × Bool)) (f : String) (v : Value) (c : Nat),
      (f, true) ∈ sort_by → getattrSort issue f = some v →
      c ∈ convertedValue v → 255 < c →
      sort_key issue sort_by = none := by
  intro sort_by
  induction sort_by with
  | nil => intro f v c hmem _ _ _; exact absurd hmem (List.not_mem_nil _)
  | cons fr rest ih =>
    intro f v c hmem hget hc hgt
    rcases List.mem_cons.mp hmem with heq | hmem'
    · rw [← heq]
      simp [sort_key, entryElem, hget, keyElemOf_none_of_gt v c hc hgt]
    · obtain ⟨f', rev'⟩ := fr
      cases hent : entryElem issue f' rev' with
      | none => simp [sort_key, hent]
      | some e => simp [sort_key, hent, ih f v c hmem' hget hc hgt]

theorem prioritize_issues_none (issues : List IssueItem)
    (sort_by : List (String × Bool)) (i : IssueItem)
    (hmem : i ∈ issues) (hk : sort_key i sort_by = none) :
    prioritize_issues issues sort_by = none := by
  simp only [prioritize_issues]
  rw [mapM_eq_none_of_mem hmem (by rw [hk]; rfl)]
  rfl

theorem prioritize_issues_some (issues : List IssueItem)
    (sort_by : List (String × Bool))
    (h : ∀ i ∈ issues, ∃ k, sort_key i sort_by = some k) :
    ∃ out, prioritize_issues issues sort_by = some out := by
  obtain ⟨deco, hdeco⟩ := mapM_eq_some_of_forall
    (f := fun i => (sort_key i sort_by).map (fun k => (i, k)))
    (fun i hi => by
      obtain ⟨k, hk⟩ := h i hi
      exact ⟨(i, k),
        show Option.map (fun k => (i, k)) (sort_key i sort_by) = some (i, k) by
          rw [hk]
          rfl⟩)
  exact ⟨_, by simp only [prioritize_issues]; rw [hdeco]; rfl⟩

/-- C10 counterexample: the raw title `"K"` (KELVIN SIGN U+212A, code
point 8490 > 255) case-folds to `"k"` (107), so under a descending title
key `chr(255 - ord('k'))` succeeds: key construction does not raise and
`prioritize_issues` sorts the item fine — refuting the claim that any
item whose descending-key value contains a code point above 255 makes the
sort fail. -/
theorem claim_C10_counterexample :
    cp "K" = [8490]
    ∧ sort_key { title := "K" } [("title", true)] = some [some [148]]
    ∧ prioritize_issues [{ title := "K" }] [("title", true)]
        = some [{ title := "K" }] := by
  refine ⟨by decide, by decide, by decide⟩

/-- C10 (amended): under a descending key, `sort_key` maps every code
point `c` of the *case-folded* value through `chr(255 - ord(c))`, so the
totality boundary is the folded value, not the raw one: key construction
succeeds for an item whenever every descending key's folded value stays
within code points ≤ 255 (ascending keys never transform) — and for any
item with a descending key whose folded value contains a code point above
255, `chr` receives a negative argument, key construction raises, and the
whole `prioritize_issues` sort fails.  A raw value may contain a code
point above 255 and still sort, when folding brings it at or below 255
(e.g. KELVIN SIGN U+212A folds to `k`). -/
theorem claim_C10 :
    (∀ (issue : IssueItem) (sort_by : List (String × Bool)),
      (∀ fr ∈ sort_by, ∃ v, getattrSort issue fr.1 = some v
        ∧ (fr.2 = true → ∀ c ∈ convertedValue v, c ≤ 255)) →
      ∃ k, sort_key issue sort_by = some k)
    ∧ (∀ (issues : List IssueItem) (issue : IssueItem)
        (sort_by : List (String × Bool)) (f : String) (v : Value) (c : Nat),
      issue ∈ issues → (f, true) ∈ sort_by → getattrSort issue f = some v →
      c ∈ convertedValue v → 255 < c →
      sort_key issue sort_by = none
      ∧ prioritize_issues issues sort_by = none) := by
  constructor
  · exact sort_key_some
  · intro issues issue sort_by f v c hmem hfr hget hc hgt
    have hk := sort_key_none_of_bad_entry issue sort_by f v c hfr hget hc hgt
    exact ⟨hk, prioritize_issues_none issues sort_by issue hmem hk⟩

/-- C10 witness: a descending sort on `title` over an item whose title is
`"ω"` (code point 969 > 255) raises during key construction and the sort
fails. -/
theorem claim_C10_witness :
    sort_key { title := "ω" } [("title", true)] = none
    ∧ prioritize_issues [{ title := "ω" }] [("title", true)] = none :=
  claim_C10.2 [{ title := "ω" }] { title := "ω" } [("title", true)]
    "title" (.vstr "ω") 969 (List.mem_cons_self _ _) (List.mem_cons_self _ _)
    rfl (by decide) (by decide)

/-! ### Claim about the empty-value policy (C1) -/

/-- Whether the value `sort_key` extracts for field `f` of an item is
empty (the converted value is the empty string); `false` for a
non-sortable field. -/
def emptyAt (issue : IssueItem) (f : String) : Bool :=
  match getattrSort issue f with
  | some v => decide (convertedValue v = [])
  | none => false

theorem convertedValue_vstr_empty_iff (s : String) :
    convertedValue (.vstr s) = [] ↔ s = "" := by
  simp only [convertedValue, cp, List.map_eq_nil_iff]
  constructor
  · intro h
    apply String.ext
    simpa using h
  · intro h
    subst h
    rfl

theorem keyElemOf_empty (v : Value) (reverse : Bool)
    (h : convertedValue v = []) : keyElemOf v reverse = some none := by
  simp [keyElemOf, h]

theorem keyElemOf_nonempty (v : Value) (reverse : Bool) (e : KeyElem)
    (hne : convertedValue v ≠ []) (h : keyElemOf v reverse = some e) :
    ∃ w, e = some w := by
  simp only [keyElemOf] at h
  rw [if_neg hne] at h
  cases reverse with
  | false =>
    injection h with h
    exact ⟨convertedValue v, h.symm⟩
  | true =>
    rw [if_pos rfl] at h
    rw [Option.map_eq_some'] at h
    obtain ⟨w, _, hw⟩ := h
    exact ⟨w, hw.symm⟩

theorem ltKeyB_append_none :
    ∀ (p : SortKey) (w : List Nat) (r1 r2 : SortKey),
      ltKeyB (p ++ some w :: r1) (p ++ none :: r2) = true
      ∧ ltKeyB (p ++ none :: r2) (p ++ some w :: r1) = false := by
  intro p
  induction p with
  | nil => intro w r1 r2; exact ⟨rfl, rfl⟩
  | cons e p' ih =>
    intro w r1 r2
    have h := ih w r1 r2
    constructor
    · simpa [ltKeyB, lexLtB, ltElemB_irrefl e] using h.1
    · simpa [ltKeyB, lexLtB, ltElemB_irrefl e] using h.2

theorem sort_key_single (i : IssueItem) (f : String) (rev : Bool) (k : SortKey)
    (h : sort_key i [(f, rev)] = some k) :
    ∃ v e, getattrSort i f = some v ∧ keyElemOf v rev = some e ∧ k = [e] := by
  cases hg : getattrSort i f with
  | none =>
    simp [sort_key, entryElem, hg] at h
  | some v =>
    cases he : keyElemOf v rev with
    | none => simp [sort_key, entryElem, hg, he] at h
    | some e =>
      have h' : (some [e] : Option SortKey) = some k := by
        simpa [sort_key, entryElem, hg, he] using h
      refine ⟨v, e, rfl, he, ?_⟩
      injection h' with h'
      exact h'.symm

/-- C1: in `sort_key`, an empty value contributes the marker `(1, None)`
(encoded `none`) no matter the requested direction, a non-empty value
contributes a `(0, value)` component, any key whose component at some
position is the empty marker compares strictly above any key equal before
that position whose component there is non-empty (Python tuple order), and
consequently, in every successful single-key `prioritize_issues` run —
ascending or descending — once an item with an empty value for the key
appears, every later item also has an empty value: empty-valued items form
a suffix, after all non-empty ones.  (For a string field the converted
value is empty exactly when the field is the empty string.) -/
theorem claim_C1 :
    (∀ s : String, convertedValue (.vstr s) = [] ↔ s = "")
    ∧ (∀ (v : Value) (reverse : Bool), convertedValue v = [] →
        keyElemOf v reverse = some none)
    ∧ (∀ (v : Value) (reverse : Bool) (e : KeyElem), convertedValue v ≠ [] →
        keyElemOf v reverse = some e → ∃ w, e = some w)
    ∧ (∀ (p : SortKey) (w : List Nat) (r1 r2 : SortKey),
        ltKeyB (p ++ some w :: r1) (p ++ none :: r2) = true
        ∧ ltKeyB (p ++ none :: r2) (p ++ some w :: r1) = false)
    ∧ (∀ (f : String) (reverse : Bool) (items out : List IssueItem),
        prioritize_issues items [(f, reverse)] = some out →
        out.Pairwise (fun a b => emptyAt a f = true → emptyAt b f = true)) := by
  refine ⟨convertedValue_vstr_empty_iff, keyElemOf_empty, keyElemOf_nonempty,
    ltKeyB_append_none, ?_⟩
  intro f rev items out h
  simp only [prioritize_issues] at h
  rw [Option.map_eq_some'] at h
  obtain ⟨deco, hdeco, hout⟩ := h
  have hinv : ∀ p ∈ deco, sort_key p.1 [(f, rev)] = some p.2 := by
    intro p hp
    obtain ⟨i, _, hgi⟩ := mem_of_mapM_eq_some hdeco p hp
    rw [Option.map_eq_some'] at hgi
    obtain ⟨k, hk, hik⟩ := hgi
    rw [← hik]
    exact hk
  have hmemS : ∀ p ∈ List.insertionSort decoLe deco,
      sort_key p.1 [(f, rev)] = some p.2 :=
    fun p hp => hinv p ((List.mem_insertionSort decoLe).mp hp)
  have key_rel : ∀ p q : IssueItem × SortKey,
      sort_key p.1 [(f, rev)] = some p.2 → sort_key q.1 [(f, rev)] = some q.2 →
      decoLe p q → emptyAt p.1 f = true → emptyAt q.1 f = true := by
    intro p q hp hq hle hpe
    by_contra hqe
    obtain ⟨v, e, hgv, hev, hk⟩ := sort_key_single _ _ _ _ hp
    obtain ⟨v', e', hgv', hev', hk'⟩ := sort_key_single _ _ _ _ hq
    simp only [emptyAt, hgv, decide_eq_true_eq] at hpe
    simp only [emptyAt, hgv', decide_eq_true_eq] at hqe
    have he : e = none := by
      have := keyElemOf_empty v rev hpe
      rw [hev] at this
      injection this
    obtain ⟨w, hw⟩ := keyElemOf_nonempty v' rev e' hqe hev'
    unfold decoLe at hle
    rw [hk, hk', he, hw] at hle
    have := (ltKeyB_append_none [] w [] []).1
    simp only [List.nil_append] at this
    rw [this] at hle
    exact Bool.noConfusion hle
  have hsorted : List.Pairwise decoLe (List.insertionSort decoLe deco) :=
    List.sorted_insertionSort decoLe deco
  have hpair : List.Pairwise
      (fun a b : IssueItem × SortKey => emptyAt a.1 f = true → emptyAt b.1 f = true)
      (List.insertionSort decoLe deco) :=
    List.Pairwise.imp_of_mem
      (fun ha hb hr => key_rel _ _ (hmemS _ ha) (hmemS _ hb) hr) hsorted
  rw [← hout, List.pairwise_map]
  exact hpair

/-- C1 witness: sorting ascending by due date puts the dated item before
the one with an empty due date, and the sorted pair satisfies the
empties-last pairwise property. -/
theorem claim_C1_witness :
    prioritize_issues [{ due_date := "" }, { due_date := "2024-01-01" }]
        [("due_date", false)]
      = some [{ due_date := "2024-01-01" }, { due_date := "" }]
    ∧ List.Pairwise
        (fun a b => emptyAt a "due_date" = true → emptyAt b "due_date" = true)
        [({ due_date := "2024-01-01" } : IssueItem), { due_date := "" }] := by
  refine ⟨by decide, ?_⟩
  exact claim_C1.2.2.2.2 "due_date" false
    [{ due_date := "" }, { due_date := "2024-01-01" }]
    [{ due_date := "2024-01-01" }, { due_date := "" }] (by decide)

/-! ### Claim about numeric vs. string comparison of timestamps (C6) -/

/-- The number a big-endian digit list denotes. -/
def valOf (l : List Nat) : Nat := l.foldl (fun a d => 10 * a + d) 0

theorem foldl_digits_shift :
    ∀ (l : List Nat) (a : Nat),
      l.foldl (fun a d => 10 * a + d) a = a * 10 ^ l.length + valOf l := by
  intro l
  induction l with
  | nil => intro a; simp [valOf]
  | cons d l' ih =>
    intro a
    have h1 : (d :: l').foldl (fun a d => 10 * a + d) a
        = l'.foldl (fun a d => 10 * a + d) (10 * a + d) := rfl
    have h2 : valOf (d :: l') = l'.foldl (fun a d => 10 * a + d) d := by
      simp [valOf]
    rw [h1, ih (10 * a + d), h2, ih d]
    simp [List.length_cons, pow_succ]
    ring

theorem valOf_cons (d : Nat) (l : List Nat) :
    valOf (d :: l) = d * 10 ^ l.length + valOf l := by
  have h : valOf (d :: l) = l.foldl (fun a d => 10 * a + d) d := by
    simp [valOf]
  rw [h, foldl_digits_shift]

theorem valOf_append_last (l : List Nat) (d : Nat) :
    valOf (l ++ [d]) = 10 * valOf l + d := by
  simp only [valOf, List.foldl_append]
  rfl

theorem valOf_lt_pow (l : List Nat) (h : ∀ d ∈ l, d < 10) :
    valOf l < 10 ^ l.length := by
  induction l with
  | nil => simp [valOf]
  | cons d l' ih =>
    have h1 := ih (fun x hx => h x (List.mem_cons_of_mem d hx))
    have hd : d < 10 := h d (List.mem_cons_self d l')
    rw [valOf_cons, List.length_cons, pow_succ]
    have h2 : d * 10 ^ l'.length + valOf l' < (d + 1) * 10 ^ l'.length := by
      rw [Nat.succ_mul]
      exact Nat.add_lt_add_left h1 _
    have h3 : (d + 1) * 10 ^ l'.length ≤ 10 * 10 ^ l'.length :=
      Nat.mul_le_mul_right _ (by omega)
    rw [Nat.mul_comm (10 ^ l'.length) 10]
    omega

theorem lex_iff_val :
    ∀ x y : List Nat, x.length = y.length →
      (∀ d ∈ x, d < 10) → (∀ d ∈ y, d < 10) →
      (ltNatListB x y = true ↔ valOf x < valOf y) := by
  intro x
  induction x with
  | nil =>
    intro y hlen _ _
    cases y with
    | nil => simp [ltNatListB, lexLtB, valOf]
    | cons e y' => simp at hlen
  | cons d x' ih =>
    intro y hlen hx hy
    cases y with
    | nil => simp at hlen
    | cons e y' =>
      have hlen' : x'.length = y'.length := by simpa using hlen
      have hd : d < 10 := hx d (List.mem_cons_self d x')
      have hx' := fun a ha => hx a (List.mem_cons_of_mem d ha)
      have hy' := fun a ha => hy a (List.mem_cons_of_mem e ha)
      have hvx := valOf_cons d x'
      have hvy := valOf_cons e y'
      have hbx := valOf_lt_pow x' hx'
      have hby := valOf_lt_pow y' hy'
      by_cases hde : d < e
      · have hval : valOf (d :: x') < valOf (e :: y') := by
          rw [hvx, hvy, ← hlen']
          have h1 : d * 10 ^ x'.length + valOf x' < (d + 1) * 10 ^ x'.length := by
            rw [Nat.succ_mul]
            exact Nat.add_lt_add_left hbx _
          have h2 : (d + 1) * 10 ^ x'.length ≤ e * 10 ^ x'.length :=
            Nat.mul_le_mul_right _ (by omega)
          omega
        simp only [ltNatListB, lexLtB, ltNatB]
        rw [if_pos (by simpa using hde)]
        exact iff_of_true rfl hval
      · by_cases hed : e < d
        · have hval : valOf (e :: y') < valOf (d :: x') := by
            rw [hvx, hvy, hlen']
            have h1 : e * 10 ^ y'.length + valOf y' < (e + 1) * 10 ^ y'.length := by
              rw [Nat.succ_mul]
              exact Nat.add_lt_add_left hby _
            have h2 : (e + 1) * 10 ^ y'.length ≤ d * 10 ^ y'.length :=
              Nat.mul_le_mul_right _ (by omega)
            omega
          simp only [ltNatListB, lexLtB, ltNatB]
          rw [if_neg (by simpa using hde), if_pos (by simpa using hed)]
          exact iff_of_false (by simp) (by omega)
        · have hde' : d = e := by omega
          subst hde'
          simp only [ltNatListB, lexLtB, ltNatB]
          rw [if_neg (by simp), if_neg (by simp)]
          rw [hvx, hvy, ← hlen']
          have := ih y' hlen' hx' hy'
          simp only [ltNatListB] at this
          rw [this]
          omega

theorem valOf_digitsFuel :
    ∀ fuel n : Nat, n < fuel → valOf (digitsFuel fuel n) = n := by
  intro fuel
  induction fuel with
  | zero => intro n h; omega
  | succ f ih =>
    intro n h
    by_cases h10 : n < 10
    · simp [digitsFuel, h10, valOf]
    · have hlt : n / 10 < n := Nat.div_lt_self (by omega) (by omega)
      have hdiv : n / 10 < f := by omega
      simp only [digitsFuel, if_neg h10]
      rw [valOf_append_last, ih (n / 10) hdiv]
      omega

theorem digitsFuel_lt_10 :
    ∀ fuel n : Nat, ∀ d ∈ digitsFuel fuel n, d < 10 := by
  intro fuel
  induction fuel with
  | zero => intro n d hd; simp [digitsFuel] at hd
  | succ f ih =>
    intro n d hd
    by_cases h10 : n < 10
    · simp [digitsFuel, h10] at hd
      omega
    · simp only [digitsFuel, if_neg h10, List.mem_append,
        List.mem_singleton] at hd
      rcases hd with hd | hd
      · exact ih (n / 10) d hd
      · subst hd; exact Nat.mod_lt n (by omega)

theorem digitsFuel_ne_nil :
    ∀ fuel n : Nat, 0 < fuel → digitsFuel fuel n ≠ [] := by
  intro fuel n h
  cases fuel with
  | zero => omega
  | succ f =>
    by_cases h10 : n < 10
    · simp [digitsFuel, h10]
    · simp [digitsFuel, h10]

theorem valOf_natDigits (n : Nat) : valOf (natDigits n) = n :=
  valOf_digitsFuel (n + 1) n (Nat.lt_succ_self n)

theorem natDigits_lt_10 (n : Nat) : ∀ d ∈ natDigits n, d < 10 :=
  digitsFuel_lt_10 (n + 1) n

theorem natDigits_ne_nil (n : Nat) : natDigits n ≠ [] :=
  digitsFuel_ne_nil (n + 1) n (Nat.succ_pos n)

theorem ltNatListB_map_add (k : Nat) :
    ∀ x y : List Nat,
      ltNatListB (x.map (· + k)) (y.map (· + k)) = ltNatListB x y := by
  intro x
  induction x with
  | nil =>
    intro y
    cases y with
    | nil => rfl
    | cons e y' => rfl
  | cons d x' ih =>
    intro y
    cases y with
    | nil => rfl
    | cons e y' =>
      have hlt : ltNatB (d + k) (e + k) = ltNatB d e := by
        simp only [ltNatB]
        rw [decide_eq_decide]
        omega
      have hlt' : ltNatB (e + k) (d + k) = ltNatB e d := by
        simp only [ltNatB]
        rw [decide_eq_decide]
        omega
      have ih' := ih y'
      simp only [ltNatListB] at ih' ⊢
      simp only [List.map_cons, lexLtB, hlt, hlt', ih']

/-- C6 counterexample: two items with `updated_at` epochs 999999999 (nine
digits) and 1000000000 (ten digits) under an ascending `updated_at` key:
the numerically smaller timestamp gets the lexicographically *larger* key
(`"9…" > "1…"` as strings), so the ascending sort puts the numerically
larger timestamp first — the comparison is not numeric. -/
theorem claim_C6_counterexample :
    prioritize_issues [{ updated_at := 999999999 }, { updated_at := 1000000000 }]
        [("updated_at", false)]
      = some [{ updated_at := 1000000000 }, { updated_at := 999999999 }]
    ∧ ltKeyB ((sort_key { updated_at := 999999999 } [("updated_at", false)]).getD [])
        ((sort_key { updated_at := 1000000000 } [("updated_at", false)]).getD [])
      = false
    ∧ ltKeyB ((sort_key { updated_at := 1000000000 } [("updated_at", false)]).getD [])
        ((sort_key { updated_at := 999999999 } [("updated_at", false)]).getD [])
      = true := by
  refine ⟨by decide, by decide, by decide⟩

/-- C6 (amended): an ascending timestamp key is the decimal epoch-second
string of the timestamp (`strftime("%s")`), compared lexicographically —
which agrees with numeric comparison exactly on epochs whose decimal
representations have the same number of digits — and string-valued keys
compare by their case-folded form (two strings with equal folded forms get
identical key components in either direction). -/
theorem claim_C6 :
    (∀ e : Nat, keyElemOf (.vdt e) false = some (some (natDecimalCp e)))
    ∧ (∀ e1 e2 : Nat,
        (natDigits e1).length = (natDigits e2).length → e1 < e2 →
        ltElemB (some (natDecimalCp e1)) (some (natDecimalCp e2)) = true)
    ∧ (∀ (s t : String) (reverse : Bool),
        (cp s).map pyLower = (cp t).map pyLower →
        keyElemOf (.vstr s) reverse = keyElemOf (.vstr t) reverse) := by
  refine ⟨?_, ?_, ?_⟩
  · intro e
    have hne : convertedValue (.vdt e) ≠ [] := by
      simp only [convertedValue, natDecimalCp]
      simp [natDigits_ne_nil e]
    simp only [keyElemOf]
    rw [if_neg hne]
    rfl
  · intro e1 e2 hlen hlt
    have hval : ltNatListB (natDigits e1) (natDigits e2) = true := by
      rw [lex_iff_val (natDigits e1) (natDigits e2) hlen
        (natDigits_lt_10 e1) (natDigits_lt_10 e2),
        valOf_natDigits, valOf_natDigits]
      exact hlt
    show ltNatListB (natDecimalCp e1) (natDecimalCp e2) = true
    simp only [natDecimalCp]
    rw [ltNatListB_map_add 48 (natDigits e1) (natDigits e2)]
    exact hval
  · intro s t reverse h
    simp only [keyElemOf, convertedValue]
    rw [h]

/-- C6 witness: for same-digit-length epochs the key comparison is
numeric (3 < 5), an ascending datetime key is the decimal epoch string,
and strings differing only by case get the same key component. -/
theorem claim_C6_witness :
    ltElemB (some (natDecimalCp 3)) (some (natDecimalCp 5)) = true
    ∧ keyElemOf (.vdt 7) false = some (some (natDecimalCp 7))
    ∧ keyElemOf (.vstr "AbC") false = keyElemOf (.vstr "aBc") false := by
  exact ⟨claim_C6.2.1 3 5 (by decide) (by norm_num), claim_C6.1 7,
    claim_C6.2.2 "AbC" "aBc" false (by decide)⟩

end TodoMerger
